import Mathlib

/-
Verification of the paragraph-stream-to-hierarchy reconstruction core of the
DOCX-to-XML converter (src/docx_to_xml_converter..py).

Python strings are modelled as lists of characters (`PyStr`).  The converter's
mutable state is rendered functionally; every definition is annotated with the
source function it embeds.
-/

set_option linter.unusedVariables false

/-- Python strings, modelled as lists of characters. -/
abbrev PyStr := List Char

/-- The `ListItem` dataclass (source lines 39-44): `number`, `text`, `level`
and an ordered list of `children`. -/
inductive ListItem where
  | mk (number : PyStr) (text : PyStr) (level : Nat) (children : List ListItem)

/-- Field accessor for `ListItem.number`. -/
def ListItem.number : ListItem → PyStr
  | .mk n _ _ _ => n

/-- Field accessor for `ListItem.text`. -/
def ListItem.text : ListItem → PyStr
  | .mk _ t _ _ => t

/-- Field accessor for `ListItem.level`. -/
def ListItem.level : ListItem → Nat
  | .mk _ _ l _ => l

/-- Field accessor for `ListItem.children`. -/
def ListItem.children : ListItem → List ListItem
  | .mk _ _ _ cs => cs

/-- The signature of a node: its `number`, `text` and `level` fields
(everything except the children). -/
def itemSig : ListItem → PyStr × PyStr × Nat
  | .mk n t l _ => (n, t, l)

/-
The hierarchy builder `_add_list_item_to_content` (source lines 282-312)
mutates a shared structure: `list_stack` holds aliases of nodes that also sit
in the forest rooted at `current_items`, and `parent.children.append` mutates
a node through the stack alias.  Stack discipline makes this functional: a
node's `children` list can only grow while the node is the top of the stack,
and the entry directly below a stack entry never changes while that entry is
on the stack.  We therefore keep each stack entry as an `OpenItem` carrying
the children accumulated so far (`childAcc`), and perform the attachment the
Python code did at creation time when the entry leaves the stack (`popTop`):
the bottom entry was appended to `current_items` (both branches of the source
that push at index 0 first append to `current_items`), and an entry above
another was appended to that entry's `children`.  The final forest is
identical to the Python `current_items` after the run.
-/

/-- A node currently on `list_stack`: its fields plus the children accumulated
so far (the node was created with the `children` it carried, and grows only
while on top of the stack). -/
structure OpenItem where
  number : PyStr
  text : PyStr
  level : Nat
  childAcc : List ListItem

/-- Close an open node into a `ListItem` (its accumulated children become
final). -/
def closeItem (o : OpenItem) : ListItem :=
  .mk o.number o.text o.level o.childAcc

/-- The builder state of `_add_list_item_to_content`: the `current_items`
forest of finished top-level nodes and the `list_stack` of open ancestors.
The head of `list_stack` is the deepest entry (Python's `list_stack[-1]`). -/
structure BuildState where
  current_items : List ListItem
  list_stack : List OpenItem

/-- One `list_stack.pop()` (source line 293), together with the attachment the
source performed at creation time: the bottom entry goes to the end of
`current_items`, any other entry to the end of the children of the entry
below it. -/
def popTop : BuildState → BuildState
  | ⟨items, []⟩ => ⟨items, []⟩
  | ⟨items, [t]⟩ => ⟨items ++ [closeItem t], []⟩
  | ⟨items, t :: p :: rest⟩ =>
      ⟨items, ⟨p.number, p.text, p.level, p.childAcc ++ [closeItem t]⟩ :: rest⟩

/-- The `while len(list_stack) > list_item.level: list_stack.pop()` loop
(source lines 292-294), with an explicit fuel; `unwind` supplies fuel equal to
the stack length, which bounds the number of iterations. -/
def unwindFuel : Nat → Nat → BuildState → BuildState
  | 0, _, s => s
  | fuel + 1, level, s =>
      if level < s.list_stack.length then unwindFuel fuel level (popTop s) else s

/-- The unwind loop of `_add_list_item_to_content` (source lines 292-294). -/
def unwind (level : Nat) (s : BuildState) : BuildState :=
  unwindFuel s.list_stack.length level s

/-- Push the incoming item onto the stack (`list_stack.append(list_item)`,
performed in every branch of source lines 296-310).  The item arrives with
whatever `children` it already carries. -/
def pushOpen (list_item : ListItem) (s : BuildState) : BuildState :=
  ⟨s.current_items,
   ⟨list_item.number, list_item.text, list_item.level, list_item.children⟩ ::
     s.list_stack⟩

/-- The body of `_add_list_item_to_content` (source lines 282-312): unwind the
stack to the item's level, then attach and push.  The three source branches
(level 0 → append to `current_items`; stack non-empty → append to the top's
`children`; stack empty → append to `current_items`) all end by pushing the
item; in this rendering the append itself is performed by `popTop` when the
item later leaves the stack, which reproduces exactly the branch taken here
(see the comment above `OpenItem`). -/
def add_list_item_to_content (list_item : ListItem) (s : BuildState) : BuildState :=
  let s1 := unwind list_item.level s
  if list_item.level == 0 then
    pushOpen list_item s1
  else
    match s1.list_stack with
    | _ :: _ => pushOpen list_item s1
    | [] => pushOpen list_item s1

/-- Flush the remaining open stack entries into the forest.  In the source the
nodes are already linked into `current_items` when created; here the deferred
attachments are performed by unwinding the stack to length 0. -/
def finalizeBuild (s : BuildState) : List ListItem :=
  (unwind 0 s).current_items

/-- Run the hierarchy builder over a whole sequence of classified list items,
starting from an empty `current_items` and an empty `list_stack`, exactly as
`_extract_content` does for one section (source lines 154-198). -/
def buildItems (input : List ListItem) : List ListItem :=
  finalizeBuild (input.foldl (fun s li => add_list_item_to_content li s) ⟨[], []⟩)

mutual

/-- Preorder signature list of one tree: the node's signature followed by the
preorder of its children, left to right. -/
def preT : ListItem → List (PyStr × PyStr × Nat)
  | .mk n t l cs => (n, t, l) :: preL cs

/-- Preorder signature list of a forest. -/
def preL : List ListItem → List (PyStr × PyStr × Nat)
  | [] => []
  | c :: cs => preT c ++ preL cs

end

/-- Preorder contribution of one open stack entry. -/
def preOpen (o : OpenItem) : List (PyStr × PyStr × Nat) :=
  (o.number, o.text, o.level) :: preL o.childAcc

/-- Preorder contribution of the stack, bottom entry first (the head of the
list is the deepest entry, so it comes last). -/
def preStack : List OpenItem → List (PyStr × PyStr × Nat)
  | [] => []
  | o :: rest => preStack rest ++ preOpen o

/-- Preorder of the whole builder state: finished forest first, then the open
stack from bottom to top. -/
def preState (s : BuildState) : List (PyStr × PyStr × Nat) :=
  preL s.current_items ++ preStack s.list_stack

/-- Depth-bounded-by-level predicate: a node sitting at depth `d` (with `d`
ancestors inside its section) has `level ≥ d`, recursively. -/
inductive DepthLE : Nat → ListItem → Prop where
  | mk : d ≤ l → (∀ c ∈ cs, DepthLE (d + 1) c) →
      DepthLE d (ListItem.mk n t l cs)

/-- Depth-equals-level predicate (the claimed invariant): a node sitting at
depth `d` has `level = d`, recursively. -/
inductive DepthEQ : Nat → ListItem → Prop where
  | mk : d = l → (∀ c ∈ cs, DepthEQ (d + 1) c) →
      DepthEQ d (ListItem.mk n t l cs)

/-- Membership of a node anywhere in a forest (at top level or nested below
some member). -/
inductive InForest : ListItem → List ListItem → Prop where
  | here : t ∈ F → InForest t F
  | deeper : r ∈ F → InForest t r.children → InForest t F

/-- Python `str.strip()`: remove leading and trailing whitespace. -/
def pyStrip (s : PyStr) : PyStr :=
  ((s.dropWhile Char.isWhitespace).reverse.dropWhile Char.isWhitespace).reverse

/-- The `_is_heading` check (source lines 232-239):
`style.startswith('Heading')`, a case-sensitive literal prefix test. -/
def is_heading (style : PyStr) : Bool :=
  List.isPrefixOf ("Heading".toList) style

/-- Case-insensitive match of a literal pattern at the front of a string,
returning the remainder on success (the effect of `re.IGNORECASE` on the
literal part of the pattern). -/
def matchCI : PyStr → PyStr → Option PyStr
  | [], s => some s
  | _ :: _, [] => none
  | p :: ps, c :: cs => if c.toLower = p.toLower then matchCI ps cs else none

/-- Try the regular expression `Heading\s+(\d+)` (with `re.IGNORECASE`) at the
start of `s`: the literal `Heading` case-insensitively, then at least one
whitespace character, then the captured maximal digit run.  Greedy `\s+`
cannot backtrack usefully here: a shorter whitespace run would leave a
whitespace character where a digit is required. -/
def matchHeadingAt (s : PyStr) : Option PyStr :=
  match matchCI ("Heading".toList) s with
  | none => none
  | some rest =>
      if (rest.takeWhile Char.isWhitespace).isEmpty then none
      else if ((rest.dropWhile Char.isWhitespace).takeWhile Char.isDigit).isEmpty then none
      else some ((rest.dropWhile Char.isWhitespace).takeWhile Char.isDigit)

/-- The `re.search(r'Heading\s+(\d+)', style, re.IGNORECASE)` of
`_get_heading_level_from_style` (source line 248): try the pattern at every
position, leftmost first, returning the captured digit group. -/
def headingSearch : PyStr → Option PyStr
  | [] => none
  | c :: rest =>
      match matchHeadingAt (c :: rest) with
      | some ds => some ds
      | none => headingSearch rest

/-- Decimal value of a digit string (the mathematical content of Python
`int`). -/
def digitsToNat (l : PyStr) : Nat :=
  l.foldl (fun n c => n * 10 + (c.toNat - 48)) 0

/-- Python `int()` on the captured group, modelled as fallible: it succeeds
exactly on non-empty all-digit strings (a sufficient model here, since the
capture group of the pattern is `\d+`), raising `ValueError` (`none`)
otherwise. -/
def pyIntDigits (l : PyStr) : Option Nat :=
  if !l.isEmpty && l.all Char.isDigit then some (digitsToNat l) else none

/-- The `_get_heading_level_from_style` extraction (source lines 241-254):
the captured numeral's value when the pattern matches, else the default 1. -/
def get_heading_level_from_style (style : PyStr) : Nat :=
  match headingSearch style with
  | some ds => digitsToNat ds
  | none => 1

/-- The same extraction with the fallibility of `int()` made explicit:
`none` marks the (claimed unreachable) exception path of
`int(match.group(1))` in source line 250. -/
def get_heading_level_checked (style : PyStr) : Option Nat :=
  match headingSearch style with
  | some ds => pyIntDigits ds
  | none => some 1

/-- The body of the marker regex `^\s*(?:\d+|[a-zA-Z])[).]\s*` after the
leading whitespace: a maximal digit run or a single ASCII letter, then `)` or
`.`; returns the remainder after the bracket character.  When the digit run is
non-empty the letter alternative cannot apply (the first character is a digit,
not a letter), matching the backtracking behaviour of `re`. -/
def markerRest (l : PyStr) : Option PyStr :=
  let ds := l.takeWhile Char.isDigit
  if ds.isEmpty then
    match l with
    | c :: c2 :: rest =>
        if c.isAlpha && (c2 = ')' || c2 = '.') then some rest else none
    | _ => none
  else
    match l.drop ds.length with
    | c2 :: rest => if c2 = ')' || c2 = '.' then some rest else none
    | [] => none

/-- The `re.sub(r'^\s*(?:\d+|[a-zA-Z])[).]\s*', '', text)` of
`_create_list_item` (source line 269): strip one leading enumerator token if
the pattern matches, otherwise leave the text unchanged. -/
def stripListMarker (s : PyStr) : PyStr :=
  match markerRest (s.dropWhile Char.isWhitespace) with
  | some rest => rest.dropWhile Char.isWhitespace
  | none => s

/-- A paragraph descriptor as `_extract_content` reads it from the document
layer: revision/comment flag, `para.Style.NameLocal`, `para.Range.Text`,
`para.Range.ListFormat.ListType` (0 = no list), the 1-based
`ListFormat.ListLevelNumber` and the `ListFormat.ListString` marker. -/
structure Paragraph where
  is_revision_or_comment : Bool
  style : PyStr
  text : PyStr
  list_type : Nat
  list_level_number : Nat
  list_string : PyStr

/-- The `_create_list_item` construction (source lines 256-280): strip the
text, clean the leading marker, and store the 0-based level
(`ListLevelNumber - 1`; natural subtraction truncates at 0, which yields the
same forest as Python's `-1` would: both unwind the whole stack and attach at
top level).  The exception branch of the source can only be reached by the
COM layer, so the model always succeeds. -/
def create_list_item (para : Paragraph) : Option ListItem :=
  let text := pyStrip para.text
  let cleaned_text := stripListMarker text
  some (ListItem.mk para.list_string cleaned_text (para.list_level_number - 1) [])

/-- One section's stored data: the heading level and the item forest
(the `{'level': ..., 'items': ...}` dict of source lines 180-183). -/
structure SectionData where
  level : Nat
  items : List ListItem

/-- CPython dict assignment `content[key] = val` on an insertion-ordered
dict: overwrite in place when the key exists, append otherwise. -/
def dictInsert (content : List (PyStr × SectionData)) (key : PyStr)
    (val : SectionData) : List (PyStr × SectionData) :=
  match content with
  | [] => [(key, val)]
  | (k, v) :: rest =>
      if k = key then (k, val) :: rest else (k, v) :: dictInsert rest key val

/-- The loop state of `_extract_content` (source lines 154-158): the content
dict, `current_header` (None before the first heading), its level, and the
builder state bundling `current_items` with `list_stack`. -/
structure ExtractState where
  content : List (PyStr × SectionData)
  current_header : Option PyStr
  current_header_level : Nat
  builder : BuildState

/-- Python truthiness of `current_header` in `if current_header:` (source
lines 178 and 204): `None` and the empty string are falsy. -/
def pyTruthyStr : Option PyStr → Bool
  | none => false
  | some s => !s.isEmpty

/-- The `if current_header: content[current_header] = {...}` step performed
at each heading boundary and at stream end (source lines 178-184 and
204-208).  The stored items are the final value of `current_items`: the
deferred attachments of the open stack are flushed by `finalizeBuild`
(afterwards the source never mutates these nodes again, since the stack is
reset). -/
def closeSection (st : ExtractState) : List (PyStr × SectionData) :=
  if pyTruthyStr st.current_header then
    dictInsert st.content (st.current_header.getD [])
      ⟨st.current_header_level, finalizeBuild st.builder⟩
  else st.content

/-- The loop body of `_extract_content` (source lines 164-201): skip
revision/comment paragraphs; on a heading, close the previous section and
open a new one with empty `current_items` and `list_stack`; skip empty text;
on a list paragraph, feed the created item to the hierarchy builder; ignore
other paragraphs. -/
def extract_step (st : ExtractState) (para : Paragraph) : ExtractState :=
  if para.is_revision_or_comment then st
  else
    let text := pyStrip para.text
    if is_heading para.style then
      { content := closeSection st,
        current_header := some text,
        current_header_level := get_heading_level_from_style para.style,
        builder := ⟨[], []⟩ }
    else if text.isEmpty then st
    else if para.list_type != 0 then
      match create_list_item para with
      | some li => { st with builder := add_list_item_to_content li st.builder }
      | none => st
    else st

/-- The whole `_extract_content` pass (source lines 147-212): fold the loop
body over the paragraphs starting from the initial state (`content = {}`,
`current_header = None`, level 1, empty items and stack), then close the last
open section. -/
def extract_content (paras : List Paragraph) : List (PyStr × SectionData) :=
  closeSection (paras.foldl extract_step ⟨[], none, 1, ⟨[], []⟩⟩)

/-- An XML element as built through `xml.etree.ElementTree`: tag, attribute
list, text and ordered children. -/
inductive XmlElem where
  | mk (tag : PyStr) (attribs : List (PyStr × PyStr)) (text : PyStr)
      (children : List XmlElem)

/-- Field accessor for `XmlElem.tag`. -/
def XmlElem.tag : XmlElem → PyStr
  | .mk tg _ _ _ => tg

/-- Field accessor for `XmlElem.text`. -/
def XmlElem.text : XmlElem → PyStr
  | .mk _ _ t _ => t

/-- Field accessor for `XmlElem.children`. -/
def XmlElem.children : XmlElem → List XmlElem
  | .mk _ _ _ cs => cs

/-- Python `str(n)` for a natural number. -/
def natToPyStr (n : Nat) : PyStr :=
  (Nat.repr n).toList

mutual

/-- The recursive `_add_list_item_to_xml` (source lines 334-353): a
`ListItem` element carrying `level` and `marker` attributes and the cleaned
text, whose children are the XML renderings of the node's children, in
order. -/
def add_list_item_to_xml : ListItem → XmlElem
  | .mk num txt lvl cs =>
      .mk ("ListItem".toList)
        [("level".toList, natToPyStr lvl), ("marker".toList, num)]
        txt (add_list_items_to_xml cs)

/-- Renders a list of children (`for child in list_item.children`, source
lines 349-350). -/
def add_list_items_to_xml : List ListItem → List XmlElem
  | [] => []
  | c :: cs => add_list_item_to_xml c :: add_list_items_to_xml cs

end

/-- The `_build_xml` assembly (source lines 314-332): a `Document` root whose
children are one `Header` element per content entry, in dict (insertion)
order, each carrying its level attribute and header text and containing the
rendered item forest of its section. -/
def build_xml (content : List (PyStr × SectionData)) : XmlElem :=
  .mk ("Document".toList) [] []
    (content.map (fun hd =>
      XmlElem.mk ("Header".toList) [("level".toList, natToPyStr hd.2.level)]
        hd.1 (add_list_items_to_xml hd.2.items)))

/-- Strict-descendant relation on XML elements: `d` occurs somewhere below
`e`. -/
inductive XBelow : XmlElem → XmlElem → Prop where
  | here : d ∈ XmlElem.children e → XBelow d e
  | deeper : c ∈ XmlElem.children e → XBelow d c → XBelow d e

/-- Invariant of the open stack: counting from the bottom, the entry at depth
`d` has `level ≥ d` and its accumulated children all satisfy `DepthLE (d+1)`.
The head of the list is the deepest entry, so an entry's depth is the length
of the rest of the list. -/
def stackInv : List OpenItem → Prop
  | [] => True
  | o :: rest =>
      rest.length ≤ o.level ∧ (∀ c ∈ o.childAcc, DepthLE (rest.length + 1) c) ∧
        stackInv rest

/-- A freshly classified list item: the given fields and no children, as
produced by `_create_list_item`. -/
def leafItem (num txt : PyStr) (level : Nat) : ListItem :=
  ListItem.mk num txt level []

/-- A heading paragraph with style `Heading 1` and the given text. -/
def heading_para (t : PyStr) : Paragraph :=
  ⟨false, "Heading 1".toList, t, 0, 1, []⟩

/-- A level-1 list paragraph with a non-heading style, the given marker string
and the given text. -/
def list_para (num txt : PyStr) : Paragraph :=
  ⟨false, "List Number".toList, txt, 2, 1, num⟩

/-- Concrete input for the depth-equals-level counterexample: levels
`[0, 2]`. -/
def c1_input : List ListItem :=
  [leafItem ("1".toList) ("alpha".toList) 0, leafItem ("a)".toList) ("beta".toList) 2]

/-- Concrete input with levels `[2, 2]` and no ancestors ever opened. -/
def c2_input : List ListItem :=
  [leafItem ("1".toList) ("x".toList) 2, leafItem ("2".toList) ("y".toList) 2]

/-- Concrete input with levels `[0, 1, 1, 0, 1]`. -/
def c5_input : List ListItem :=
  [leafItem ("1".toList) ("a".toList) 0,
   leafItem ("1.1".toList) ("b".toList) 1,
   leafItem ("1.2".toList) ("c".toList) 1,
   leafItem ("2".toList) ("d".toList) 0,
   leafItem ("2.1".toList) ("e".toList) 1]

/-- Concrete input with levels `[0, 1]` for the ordering witness. -/
def c8_input : List ListItem :=
  [leafItem ("1".toList) ("a".toList) 0, leafItem ("1.1".toList) ("b".toList) 1]

/-- The top-level node produced by `buildItems c8_input`. -/
def c8_top : ListItem :=
  ListItem.mk ("1".toList) ("a".toList) 0
    [ListItem.mk ("1.1".toList) ("b".toList) 1 []]

/-- A concrete one-item section forest for the XML witness. -/
def c10_item : ListItem := leafItem ("1.".toList) ("alpha".toList) 0

/-- A concrete one-section content dict for the XML witness. -/
def c10_content : List (PyStr × SectionData) :=
  [("H".toList, ⟨1, [c10_item]⟩)]

/-- The Header element that `build_xml c10_content` produces. -/
def c10_header_elem : XmlElem :=
  XmlElem.mk ("Header".toList) [("level".toList, natToPyStr 1)] ("H".toList)
    (add_list_items_to_xml [c10_item])

/-- Preorder of a forest distributes over append. -/
theorem preL_append (a b : List ListItem) : preL (a ++ b) = preL a ++ preL b := by
  induction a with
  | nil => rfl
  | cons c cs ih => simp [preL, ih]

/-- Popping the stack only moves material around: the preorder of the builder
state is unchanged. -/
theorem preState_popTop (s : BuildState) : preState (popTop s) = preState s := by
  obtain ⟨items, stk⟩ := s
  match stk with
  | [] => rfl
  | [t] =>
      simp [popTop, preState, preStack, preOpen, preL_append, preT, preL, closeItem]
  | t :: p :: rest =>
      simp [popTop, preState, preStack, preOpen, preL_append, preT, preL, closeItem,
        List.append_assoc]

/-- The unwind loop preserves the preorder of the builder state. -/
theorem preState_unwindFuel (fuel : Nat) :
    ∀ (level : Nat) (s : BuildState), preState (unwindFuel fuel level s) = preState s := by
  induction fuel with
  | zero => intro level s; rfl
  | succ n ih =>
      intro level s
      unfold unwindFuel
      split
      · rw [ih, preState_popTop]
      · rfl

/-- Unwinding preserves the preorder of the builder state. -/
theorem preState_unwind (level : Nat) (s : BuildState) :
    preState (unwind level s) = preState s :=
  preState_unwindFuel _ _ _

/-- Pushing an item appends exactly its preorder to the state's preorder. -/
theorem preState_pushOpen (li : ListItem) (s : BuildState) :
    preState (pushOpen li s) = preState s ++ preT li := by
  obtain ⟨n, t, l, cs⟩ := li
  simp [pushOpen, preState, preStack, preOpen, preT, ListItem.number, ListItem.text,
    ListItem.level, ListItem.children, List.append_assoc]

/-- All branches of `_add_list_item_to_content` push the item after
unwinding. -/
theorem add_eq_push (li : ListItem) (s : BuildState) :
    add_list_item_to_content li s = pushOpen li (unwind li.level s) := by
  unfold add_list_item_to_content
  split
  · rfl
  · cases h : (unwind li.level s).list_stack <;> simp [h]

/-- Processing one item appends exactly its preorder to the state's
preorder. -/
theorem preState_add (li : ListItem) (s : BuildState) :
    preState (add_list_item_to_content li s) = preState s ++ preT li := by
  rw [add_eq_push, preState_pushOpen, preState_unwind]

/-- Processing a sequence of items appends exactly its preorder to the
state's preorder. -/
theorem preState_foldl (input : List ListItem) (s : BuildState) :
    preState (input.foldl (fun s li => add_list_item_to_content li s) s)
      = preState s ++ preL input := by
  induction input generalizing s with
  | nil => simp [preL]
  | cons li rest ih =>
      rw [List.foldl_cons, ih, preState_add]
      simp [preL, List.append_assoc]

/-- One pop shortens the stack by one. -/
theorem popTop_length (s : BuildState) :
    (popTop s).list_stack.length = s.list_stack.length - 1 := by
  obtain ⟨items, stk⟩ := s
  match stk with
  | [] => rfl
  | [t] => rfl
  | t :: p :: rest => simp [popTop]

/-- Given enough fuel, the unwind loop leaves at most `level` entries on the
stack. -/
theorem unwindFuel_length (fuel : Nat) :
    ∀ (level : Nat) (s : BuildState), s.list_stack.length ≤ fuel + level →
      (unwindFuel fuel level s).list_stack.length ≤ level := by
  induction fuel with
  | zero =>
      intro level s h
      simpa [unwindFuel] using by omega
  | succ n ih =>
      intro level s h
      unfold unwindFuel
      split
      · exact ih level (popTop s) (by rw [popTop_length]; omega)
      · omega

/-- After unwinding, at most `level` entries are left on the stack. -/
theorem unwind_length (level : Nat) (s : BuildState) :
    (unwind level s).list_stack.length ≤ level :=
  unwindFuel_length _ _ _ (by omega)

/-- Unwinding to level 0 empties the stack. -/
theorem unwind_zero_stack (s : BuildState) : (unwind 0 s).list_stack = [] :=
  List.length_eq_zero.mp (Nat.le_zero.mp (unwind_length 0 s))

/-- Conservation of material: the preorder of the built forest is exactly the
preorder of the input sequence. -/
theorem preL_buildItems (input : List ListItem) :
    preL (buildItems input) = preL input := by
  unfold buildItems finalizeBuild
  have h3 := unwind_zero_stack (input.foldl (fun s li => add_list_item_to_content li s) ⟨[], []⟩)
  calc preL (unwind 0 (input.foldl (fun s li => add_list_item_to_content li s) ⟨[], []⟩)).current_items
      = preState (unwind 0 (input.foldl (fun s li => add_list_item_to_content li s) ⟨[], []⟩)) := by
        simp [preState, h3, preStack]
    _ = preState (input.foldl (fun s li => add_list_item_to_content li s) ⟨[], []⟩) :=
        preState_unwind _ _
    _ = preL input := by rw [preState_foldl]; simp [preState, preL, preStack]

/-- On a sequence of childless items the preorder is one signature per
item. -/
theorem preL_of_leaves (input : List ListItem)
    (h : ∀ li ∈ input, ListItem.children li = []) :
    preL input = input.map itemSig := by
  induction input with
  | nil => rfl
  | cons li rest ih =>
      obtain ⟨n, t, l, cs⟩ := li
      have hcs : cs = [] := h _ (List.mem_cons_self _ _)
      subst hcs
      simp [preL, preT, itemSig]
      exact ih fun x hx => h x (List.mem_cons_of_mem _ hx)

/-- C9: every call of `_add_list_item_to_content` places its item in exactly
one container, so the forest built from a sequence of freshly classified
(childless) items enumerates, in preorder, exactly the input items: nothing
is dropped and nothing appears under two parents. -/
theorem c9_each_item_placed_exactly_once (input : List ListItem)
    (h : ∀ li ∈ input, ListItem.children li = []) :
    preL (buildItems input) = input.map itemSig := by
  rw [preL_buildItems, preL_of_leaves input h]

/-- Witness for C9 at a concrete two-item input. -/
theorem c9_witness :
    preL (buildItems c8_input) = c8_input.map itemSig := by
  apply c9_each_item_placed_exactly_once
  intro li hli
  rcases List.mem_cons.mp hli with rfl | hli2
  · rfl
  · rcases List.mem_cons.mp hli2 with rfl | hli3
    · rfl
    · cases hli3

/-- The top-level signatures of a forest form a sublist of its preorder. -/
theorem topSigs_sublist_preL (F : List ListItem) :
    List.Sublist (F.map itemSig) (preL F) := by
  induction F with
  | nil => simp [preL]
  | cons c cs ih =>
      obtain ⟨n, t, l, cs0⟩ := c
      simp only [List.map_cons, preL, preT, itemSig, List.cons_append]
      exact List.Sublist.cons₂ _ (ih.trans (List.sublist_append_right _ _))

/-- The preorder of a top-level member is a sublist of the forest's
preorder. -/
theorem mem_preT_sublist {t : ListItem} {F : List ListItem} (h : t ∈ F) :
    List.Sublist (preT t) (preL F) := by
  induction F with
  | nil => cases h
  | cons c cs ih =>
      rcases List.mem_cons.mp h with rfl | h2
      · simp only [preL]
        exact List.sublist_append_left _ _
      · simp only [preL]
        exact (ih h2).trans (List.sublist_append_right _ _)

/-- The preorder of a node's children is a sublist of the node's preorder. -/
theorem preL_children_sublist_preT (t : ListItem) :
    List.Sublist (preL (ListItem.children t)) (preT t) := by
  obtain ⟨n, tx, l, cs⟩ := t
  simp only [preT, ListItem.children]
  exact List.sublist_cons_self _ _

/-- The preorder of any node of a forest is a sublist of the forest's
preorder. -/
theorem inForest_preT_sublist {t : ListItem} {F : List ListItem}
    (h : InForest t F) : List.Sublist (preT t) (preL F) := by
  induction h with
  | here hmem => exact mem_preT_sublist hmem
  | deeper hmem hin ih =>
      exact ih.trans ((preL_children_sublist_preT _).trans (mem_preT_sublist hmem))

/-- C8: the builder is order-preserving: the top-level signature sequence and
the children signature sequence of every node of the output forest are
sublists of the input's preorder sequence, hence listed in source order. -/
theorem c8_order_preserving (input : List ListItem) :
    List.Sublist ((buildItems input).map itemSig) (preL input)
    ∧ ∀ t, InForest t (buildItems input) →
        List.Sublist ((ListItem.children t).map itemSig) (preL input) := by
  constructor
  · have h := topSigs_sublist_preL (buildItems input)
    rwa [preL_buildItems] at h
  · intro t ht
    have h1 := (topSigs_sublist_preL (ListItem.children t)).trans
      ((preL_children_sublist_preT t).trans (inForest_preT_sublist ht))
    rwa [preL_buildItems] at h1

/-- Witness for C8: the child list of the top-level node built from
`c8_input` is a sublist of the input's preorder. -/
theorem c8_witness :
    List.Sublist ((ListItem.children c8_top).map itemSig) (preL c8_input) :=
  (c8_order_preserving c8_input).2 c8_top (InForest.here (List.Mem.head _))

/-- Popping the stack preserves the depth invariant of items and stack. -/
theorem popTop_inv (s : BuildState)
    (hitems : ∀ t ∈ s.current_items, DepthLE 0 t) (hstk : stackInv s.list_stack) :
    (∀ t ∈ (popTop s).current_items, DepthLE 0 t) ∧
      stackInv (popTop s).list_stack := by
  obtain ⟨items, stk⟩ := s
  match stk with
  | [] => exact ⟨hitems, hstk⟩
  | [t] =>
      obtain ⟨hlev, hch, -⟩ := hstk
      refine ⟨?_, trivial⟩
      intro x hx
      rcases List.mem_append.mp hx with hx1 | hx2
      · exact hitems x hx1
      · rw [List.mem_singleton.mp hx2]
        exact DepthLE.mk hlev hch
  | t :: p :: rest =>
      obtain ⟨hlt, hct, hlp, hcp, hrest⟩ := hstk
      refine ⟨hitems, hlp, ?_, hrest⟩
      intro c hc
      rcases List.mem_append.mp hc with hc1 | hc2
      · exact hcp c hc1
      · rw [List.mem_singleton.mp hc2]
        exact DepthLE.mk hlt hct

/-- The unwind loop preserves the depth invariant. -/
theorem unwindFuel_inv (fuel : Nat) :
    ∀ (level : Nat) (s : BuildState),
      (∀ t ∈ s.current_items, DepthLE 0 t) → stackInv s.list_stack →
      (∀ t ∈ (unwindFuel fuel level s).current_items, DepthLE 0 t) ∧
        stackInv (unwindFuel fuel level s).list_stack := by
  induction fuel with
  | zero => intro level s h1 h2; exact ⟨h1, h2⟩
  | succ n ih =>
      intro level s h1 h2
      unfold unwindFuel
      split
      · exact ih level (popTop s) (popTop_inv s h1 h2).1 (popTop_inv s h1 h2).2
      · exact ⟨h1, h2⟩

/-- Unwinding preserves the depth invariant. -/
theorem unwind_inv (level : Nat) (s : BuildState)
    (h1 : ∀ t ∈ s.current_items, DepthLE 0 t) (h2 : stackInv s.list_stack) :
    (∀ t ∈ (unwind level s).current_items, DepthLE 0 t) ∧
      stackInv (unwind level s).list_stack :=
  unwindFuel_inv _ _ _ h1 h2

/-- Processing one childless item preserves the depth invariant: the item is
pushed at a depth no larger than its level. -/
theorem add_inv (li : ListItem) (s : BuildState)
    (hch : ListItem.children li = [])
    (h1 : ∀ t ∈ s.current_items, DepthLE 0 t) (h2 : stackInv s.list_stack) :
    (∀ t ∈ (add_list_item_to_content li s).current_items, DepthLE 0 t) ∧
      stackInv (add_list_item_to_content li s).list_stack := by
  rw [add_eq_push]
  obtain ⟨hu1, hu2⟩ := unwind_inv li.level s h1 h2
  refine ⟨hu1, ?_, ?_, hu2⟩
  · exact unwind_length li.level s
  · rw [hch]; intro c hc; cases hc

/-- Processing a sequence of childless items preserves the depth invariant. -/
theorem foldl_inv (input : List ListItem) :
    ∀ s : BuildState, (∀ li ∈ input, ListItem.children li = []) →
      (∀ t ∈ s.current_items, DepthLE 0 t) → stackInv s.list_stack →
      (∀ t ∈ (input.foldl (fun s li => add_list_item_to_content li s) s).current_items,
          DepthLE 0 t) ∧
        stackInv (input.foldl (fun s li => add_list_item_to_content li s) s).list_stack := by
  induction input with
  | nil => intro s _ h1 h2; exact ⟨h1, h2⟩
  | cons li rest ih =>
      intro s hall h1 h2
      rw [List.foldl_cons]
      have hli := hall li (List.mem_cons_self _ _)
      obtain ⟨h1a, h2a⟩ := add_inv li s hli h1 h2
      exact ih _ (fun x hx => hall x (List.mem_cons_of_mem _ hx)) h1a h2a

/-- C1 amended: for every sequence of freshly classified (childless) list
items, every node of the built forest has at most as many ancestors as its
`level` field (depth-bounded-by-level; equality fails in general, see the
counterexample). -/
theorem c1_amended_depth_le_level (input : List ListItem)
    (hl : ∀ li ∈ input, ListItem.children li = []) :
    ∀ t ∈ buildItems input, DepthLE 0 t := by
  unfold buildItems finalizeBuild
  obtain ⟨h1, h2⟩ := foldl_inv input ⟨[], []⟩ hl (fun t ht => by cases ht) trivial
  exact (unwind_inv 0 _ h1 h2).1

/-- Witness for the amended C1 at a concrete one-item input. -/
theorem c1_amended_witness :
    DepthLE 0 (leafItem ("1".toList) ("alpha".toList) 0) :=
  c1_amended_depth_le_level [leafItem ("1".toList) ("alpha".toList) 0]
    (fun li hli => by rw [List.mem_singleton.mp hli]; rfl)
    (leafItem ("1".toList) ("alpha".toList) 0) (List.Mem.head _)

/-- C1 counterexample: on the level sequence `[0, 2]` the second node ends at
depth 1 with `level = 2`, so the depth-equals-level invariant claimed for
every input fails. -/
theorem c1_counterexample : ¬ (∀ t ∈ buildItems c1_input, DepthEQ 0 t) := by
  intro h
  have hroot := h (ListItem.mk ("1".toList) ("alpha".toList) 0
    [ListItem.mk ("a)".toList) ("beta".toList) 2 []]) (List.Mem.head _)
  cases hroot with
  | mk hd hch =>
      have hb := hch (ListItem.mk ("a)".toList) ("beta".toList) 2 []) (List.Mem.head _)
      cases hb with
      | mk hd2 _ => exact absurd hd2 (by decide)

/-- C2 counterexample: the level sequence `[2, 2]` does not produce two
top-level nodes; only one node ends at top level. -/
theorem c2_counterexample : ¬ ((buildItems c2_input).length = 2) := by decide

/-- C2 amended: on the level sequence `[2, 2]` (no ancestors ever opened) the
first item is flattened to top level and, because the stack then holds it and
is not unwound (its length 1 does not exceed 2), the second item becomes its
single child; no error is raised. -/
theorem c2_amended_single_root_with_child :
    buildItems c2_input
      = [ListItem.mk ("1".toList) ("x".toList) 2
          [ListItem.mk ("2".toList) ("y".toList) 2 []]] := rfl

/-- C5: the level sequence `[0, 1, 1, 0, 1]` yields exactly two top-level
nodes; the first has exactly two children and the second exactly one. -/
theorem c5_forest_shape :
    (buildItems c5_input).map (fun t => (ListItem.children t).length) = [2, 1] := rfl

/-- Characterization of `List.isPrefixOf` used for the amended C6. -/
theorem isPrefixOf_exists (p : PyStr) :
    ∀ l : PyStr, List.isPrefixOf p l = true ↔ ∃ t, l = p ++ t := by
  induction p with
  | nil => intro l; simp [List.isPrefixOf]
  | cons a as ih =>
      intro l
      cases l with
      | nil =>
          simp [List.isPrefixOf]
      | cons b bs =>
          simp only [List.isPrefixOf, Bool.and_eq_true, beq_iff_eq, ih,
            List.cons_append, List.cons.injEq]
          constructor
          · rintro ⟨rfl, t, rfl⟩
            exact ⟨t, rfl, rfl⟩
          · rintro ⟨t, rfl, rfl⟩
            exact ⟨rfl, t, rfl⟩

/-- C6 counterexample: the style name `Heading` (no trailing numeral) is
classified as a heading by `_is_heading`, yet does not match the
case-insensitive "Heading followed by a numeral" pattern. -/
theorem c6_counterexample :
    ¬ (is_heading ("Heading".toList) = true
        ↔ (headingSearch ("Heading".toList)).isSome = true) := by decide

/-- C6 amended: a paragraph style is classified as a heading if and only if
it starts with the case-sensitive literal `Heading`; no trailing numeral is
required and other letter cases are rejected. -/
theorem c6_amended_prefix_test (style : PyStr) :
    is_heading style = true ↔ ∃ t, style = "Heading".toList ++ t :=
  isPrefixOf_exists ("Heading".toList) style

/-- Witness for the amended C6 at a concrete style. -/
theorem c6_amended_witness : is_heading ("HeadingFoo".toList) = true :=
  (c6_amended_prefix_test ("HeadingFoo".toList)).mpr ⟨"Foo".toList, by decide⟩

/-- A successful match of the heading pattern captures a non-empty all-digit
group. -/
theorem matchHeadingAt_digits (s ds : PyStr) (h : matchHeadingAt s = some ds) :
    ds ≠ [] ∧ ds.all Char.isDigit = true := by
  unfold matchHeadingAt at h
  split at h
  · cases h
  · split at h
    · cases h
    · split at h
      · cases h
      · cases h
        rename_i h2
        constructor
        · intro hnil
          rw [hnil] at h2
          exact h2 rfl
        · rw [List.all_eq_true]
          intro c hc
          exact List.mem_takeWhile_imp hc

/-- The search over all start positions inherits the capture shape. -/
theorem headingSearch_digits (s : PyStr) :
    ∀ ds : PyStr, headingSearch s = some ds →
      ds ≠ [] ∧ ds.all Char.isDigit = true := by
  induction s with
  | nil => intro ds h; cases h
  | cons c rest ih =>
      intro ds h
      unfold headingSearch at h
      cases hm : matchHeadingAt (c :: rest) with
      | some ds2 =>
          rw [hm] at h
          cases h
          exact matchHeadingAt_digits _ _ hm
      | none =>
          rw [hm] at h
          exact ih ds h

/-- C7: extracting the heading level never raises: `int()` on the captured
group always succeeds with the numeral's value, and when the pattern does not
match the level defaults to 1 — so the checked extraction (with the
fallibility of `int()` explicit) always returns the total extraction's
value. -/
theorem c7_heading_level_never_raises (style : PyStr) :
    get_heading_level_checked style = some (get_heading_level_from_style style) := by
  unfold get_heading_level_checked get_heading_level_from_style
  cases h : headingSearch style with
  | none => rfl
  | some ds =>
      obtain ⟨hne, hall⟩ := headingSearch_digits style ds h
      have hempty : ds.isEmpty = false := by
        cases ds with
        | nil => exact absurd rfl hne
        | cons a l => rfl
      simp [pyIntDigits, hempty, hall]

/-- A non-heading paragraph never touches the content dict or the current
header. -/
theorem extract_step_no_heading (st : ExtractState) (p : Paragraph)
    (hp : is_heading p.style = false) :
    (extract_step st p).content = st.content ∧
      (extract_step st p).current_header = st.current_header := by
  unfold extract_step
  split
  · exact ⟨rfl, rfl⟩
  · rw [hp]
    simp only [Bool.false_eq_true, if_false]
    split
    · exact ⟨rfl, rfl⟩
    · split
      · exact ⟨rfl, rfl⟩
      · exact ⟨rfl, rfl⟩

/-- Folding a heading-free paragraph stream never opens a section: content
and current header stay as they were. -/
theorem foldl_no_heading (paras : List Paragraph) :
    ∀ st : ExtractState, (∀ p ∈ paras, is_heading p.style = false) →
      (paras.foldl extract_step st).content = st.content ∧
        (paras.foldl extract_step st).current_header = st.current_header := by
  induction paras with
  | nil => intro st _; exact ⟨rfl, rfl⟩
  | cons p rest ih =>
      intro st hall
      rw [List.foldl_cons]
      obtain ⟨h1, h2⟩ := ih (extract_step st p)
        (fun x hx => hall x (List.mem_cons_of_mem _ hx))
      obtain ⟨h3, h4⟩ := extract_step_no_heading st p (hall p (List.mem_cons_self _ _))
      exact ⟨h1.trans h3, h2.trans h4⟩

/-- C4 amended: paragraphs (list items included) arriving before any heading
are buffered into `current_items` but never emitted: with no heading in the
stream the final `if current_header:` guard is false (`current_header` is
still `None`), so the output is empty — the items are discarded, not kept
under an implicit empty-header section; no error is raised. -/
theorem c4_amended_preheader_items_discarded (paras : List Paragraph)
    (h : ∀ p ∈ paras, is_heading p.style = false) :
    extract_content paras = [] := by
  unfold extract_content
  obtain ⟨h1, h2⟩ := foldl_no_heading paras ⟨[], none, 1, ⟨[], []⟩⟩ h
  unfold closeSection
  rw [h2, h1]
  rfl

/-- C4 counterexample: a stream holding one list item and no heading yields
no section at all — in particular no implicit empty-header section containing
the buffered item. -/
theorem c4_counterexample :
    ¬ ∃ sd : SectionData,
        (([] : PyStr), sd) ∈ extract_content [list_para ("1.".toList) ("alpha".toList)] := by
  rintro ⟨sd, hsd⟩
  have hempty : extract_content [list_para ("1.".toList) ("alpha".toList)] = [] := rfl
  rw [hempty] at hsd
  exact List.not_mem_nil _ hsd

/-- Witness for the amended C4 at a concrete two-item heading-free stream. -/
theorem c4_amended_witness :
    extract_content [list_para ("1.".toList) ("alpha".toList),
      list_para ("a)".toList) ("beta".toList)] = [] := by
  apply c4_amended_preheader_items_discarded
  intro p hp
  rcases List.mem_cons.mp hp with rfl | hp2
  · rfl
  · rcases List.mem_cons.mp hp2 with rfl | hp3
    · rfl
    · cases hp3

/-- C3 counterexample: two headings with the same text `A` do not survive as
two distinct sections — the content dict keyed by header text keeps only
one entry. -/
theorem c3_counterexample :
    ¬ ((extract_content [heading_para ("A".toList),
        list_para ("1.".toList) ("alpha".toList), heading_para ("A".toList),
        list_para ("2.".toList) ("beta".toList)]).length = 2) := by decide

/-- C3 amended: header text is used as a dict key, so a second heading with
identical (non-empty, already-stripped) text overwrites the first section in
place: exactly one section with that header remains, at the first
occurrence's position, carrying the items gathered after the second
heading. -/
theorem c3_amended_duplicate_header_overwrites (h : PyStr)
    (hstrip : pyStrip h = h) (hne : h.isEmpty = false) :
    extract_content [heading_para h, list_para ("1.".toList) ("alpha".toList),
      heading_para h, list_para ("2.".toList) ("beta".toList)]
      = [(h, ⟨1, [ListItem.mk ("2.".toList) ("beta".toList) 0 []]⟩)] := by
  unfold extract_content
  rw [List.foldl_cons, List.foldl_cons, List.foldl_cons, List.foldl_cons, List.foldl_nil]
  rw [show extract_step ⟨[], none, 1, ⟨[], []⟩⟩ (heading_para h)
      = ⟨[], some (pyStrip h), 1, ⟨[], []⟩⟩ from rfl]
  rw [hstrip]
  rw [show extract_step ⟨[], some h, 1, ⟨[], []⟩⟩ (list_para ("1.".toList) ("alpha".toList))
      = ⟨[], some h, 1, ⟨[], [⟨"1.".toList, "alpha".toList, 0, []⟩]⟩⟩ from rfl]
  rw [show extract_step ⟨[], some h, 1, ⟨[], [⟨"1.".toList, "alpha".toList, 0, []⟩]⟩⟩
        (heading_para h)
      = ⟨closeSection ⟨[], some h, 1, ⟨[], [⟨"1.".toList, "alpha".toList, 0, []⟩]⟩⟩,
         some (pyStrip h), 1, ⟨[], []⟩⟩ from rfl]
  rw [hstrip]
  rw [show closeSection ⟨[], some h, 1, ⟨[], [⟨"1.".toList, "alpha".toList, 0, []⟩]⟩⟩
      = if pyTruthyStr (some h) then
          dictInsert [] h ⟨1, [ListItem.mk ("1.".toList) ("alpha".toList) 0 []]⟩
        else [] from rfl]
  rw [show pyTruthyStr (some h) = !h.isEmpty from rfl, hne]
  rw [show (if (!false : Bool) then
        dictInsert [] h ⟨1, [ListItem.mk ("1.".toList) ("alpha".toList) 0 []]⟩
      else ([] : List (PyStr × SectionData)))
      = [(h, ⟨1, [ListItem.mk ("1.".toList) ("alpha".toList) 0 []]⟩)] from rfl]
  rw [show extract_step ⟨[(h, ⟨1, [ListItem.mk ("1.".toList) ("alpha".toList) 0 []]⟩)],
        some h, 1, ⟨[], []⟩⟩ (list_para ("2.".toList) ("beta".toList))
      = ⟨[(h, ⟨1, [ListItem.mk ("1.".toList) ("alpha".toList) 0 []]⟩)], some h, 1,
         ⟨[], [⟨"2.".toList, "beta".toList, 0, []⟩]⟩⟩ from rfl]
  rw [show closeSection ⟨[(h, ⟨1, [ListItem.mk ("1.".toList) ("alpha".toList) 0 []]⟩)],
        some h, 1, ⟨[], [⟨"2.".toList, "beta".toList, 0, []⟩]⟩⟩
      = if pyTruthyStr (some h) then
          dictInsert [(h, ⟨1, [ListItem.mk ("1.".toList) ("alpha".toList) 0 []]⟩)] h
            ⟨1, [ListItem.mk ("2.".toList) ("beta".toList) 0 []]⟩
        else [(h, ⟨1, [ListItem.mk ("1.".toList) ("alpha".toList) 0 []]⟩)] from rfl]
  rw [show pyTruthyStr (some h) = !h.isEmpty from rfl, hne]
  show dictInsert [(h, ⟨1, [ListItem.mk ("1.".toList) ("alpha".toList) 0 []]⟩)] h
        ⟨1, [ListItem.mk ("2.".toList) ("beta".toList) 0 []]⟩
      = [(h, ⟨1, [ListItem.mk ("2.".toList) ("beta".toList) 0 []]⟩)]
  unfold dictInsert
  rw [if_pos rfl]

/-- Witness for the amended C3 at the concrete header text `A`. -/
theorem c3_amended_witness :
    extract_content [heading_para ("A".toList),
      list_para ("1.".toList) ("alpha".toList), heading_para ("A".toList),
      list_para ("2.".toList) ("beta".toList)]
      = [("A".toList, ⟨1, [ListItem.mk ("2.".toList) ("beta".toList) 0 []]⟩)] :=
  c3_amended_duplicate_header_overwrites ("A".toList) rfl rfl

/-- Every element rendered by `_add_list_item_to_xml` carries the `ListItem`
tag. -/
theorem add_xml_tag (t : ListItem) :
    XmlElem.tag (add_list_item_to_xml t) = "ListItem".toList := by
  obtain ⟨n, tx, l, cs⟩ := t
  rfl

/-- Members of a rendered child list come from rendering some child. -/
theorem mem_xml_list (d : XmlElem) :
    ∀ cs : List ListItem, d ∈ add_list_items_to_xml cs →
      ∃ c ∈ cs, d = add_list_item_to_xml c := by
  intro cs
  induction cs with
  | nil => intro h; cases h
  | cons c rest ih =>
      intro h
      rcases List.mem_cons.mp h with rfl | h2
      · exact ⟨c, List.mem_cons_self _ _, rfl⟩
      · obtain ⟨c0, hc0, he⟩ := ih h2
        exact ⟨c0, List.mem_cons_of_mem _ hc0, he⟩

/-- Everything strictly below a rendered list item is again a `ListItem`
element. -/
theorem xbelow_add_xml (d r : XmlElem) (hb : XBelow d r) :
    ∀ t : ListItem, r = add_list_item_to_xml t →
      XmlElem.tag d = "ListItem".toList := by
  induction hb with
  | here hmem =>
      intro t ht
      subst ht
      obtain ⟨n, tx, l, cs⟩ := t
      obtain ⟨c, _, rfl⟩ := mem_xml_list _ cs hmem
      exact add_xml_tag c
  | deeper hmem hb2 ih =>
      intro t ht
      subst ht
      obtain ⟨n, tx, l, cs⟩ := t
      rename_i c d2
      obtain ⟨c0, _, rfl⟩ := mem_xml_list _ cs hmem
      exact ih c0 rfl

/-- C10: in the tree built by `_build_xml`, the children of the `Document`
root are exactly one `Header` element per content entry, in extraction
(insertion) order, carrying the header text; and nothing below a `Header`
element is itself a `Header` — every strict descendant is a `ListItem`
element, so heading levels never nest one header inside another. -/
theorem c10_headers_are_flat (content : List (PyStr × SectionData)) :
    ((build_xml content).children.map (fun e => (XmlElem.tag e, XmlElem.text e))
        = content.map (fun hd => (("Header".toList : PyStr), hd.1)))
    ∧ ∀ e ∈ (build_xml content).children, ∀ d, XBelow d e →
        XmlElem.tag d = "ListItem".toList := by
  constructor
  · show List.map _ (List.map _ content) = _
    rw [List.map_map]
    rfl
  · intro e he d hd
    have he2 : e ∈ content.map (fun hd =>
        XmlElem.mk ("Header".toList) [("level".toList, natToPyStr hd.2.level)]
          hd.1 (add_list_items_to_xml hd.2.items)) := he
    obtain ⟨hd0, -, rfl⟩ := List.mem_map.mp he2
    cases hd with
    | here hmem =>
        obtain ⟨c, -, rfl⟩ := mem_xml_list _ _ hmem
        exact add_xml_tag c
    | deeper hmem hb =>
        obtain ⟨c0, -, rfl⟩ := mem_xml_list _ _ hmem
        exact xbelow_add_xml _ _ hb c0 rfl

/-- Witness for C10: in the concrete one-section content, the rendered item
below the Header element carries the `ListItem` tag. -/
theorem c10_witness :
    XmlElem.tag (add_list_item_to_xml c10_item) = "ListItem".toList :=
  (c10_headers_are_flat c10_content).2 c10_header_elem (List.Mem.head _)
    (add_list_item_to_xml c10_item) (XBelow.here (List.Mem.head _))
